import Mathlib

/-!
Verification of the chatopshub conversation-dispatch backend.

The definitions below are a shallow embedding of the TypeScript services:
`ValkeyService` (lock helpers), `ConversationsService` (accept / release /
complete / reopen / updateLastMessageAt), `MessagesService` (create /
findByConversation / updateStatus), and `WebhooksService` /
`WebhooksController` (signature validation and the webhook gate).
Timestamps are modelled as naturals, database tables as lists, and the
Valkey key/value store as a function from keys to optional values.
-/

namespace ChatOpsHub

/-- Conversation status enum (`conversationStatusEnum` in the schema). -/
inductive ConvStatus
  | PENDING
  | ASSIGNED
  | COMPLETED
deriving DecidableEq, Repr

/-- Message status enum (`messageStatusEnum` in the schema). -/
inductive MsgStatus
  | PENDING
  | SENT
  | DELIVERED
  | READ
  | FAILED
deriving DecidableEq, Repr

/-- Message direction enum. -/
inductive Direction
  | INBOUND
  | OUTBOUND
deriving DecidableEq, Repr

/-- Conversation event types appended by `ConversationEventsService.create`. -/
inductive EventType
  | CREATED
  | ACCEPTED
  | RELEASED
  | COMPLETED
  | REOPENED
  | AGENT_DISCONNECTED
  | MESSAGE_RECEIVED
  | MESSAGE_SENT
  | MESSAGE_DELIVERED
  | MESSAGE_READ
  | MESSAGE_FAILED
deriving DecidableEq, Repr

/-- One row of the `conversation_events` table: the columns the claims
mention (`conversationId`, `eventType`, `actorId`, and the `messageId`
field of the JSON `metadata` blob). -/
structure EventRec where
  conversationId : String
  eventType : EventType
  actorId : Option String
  messageId : Option String
deriving DecidableEq, Repr

/-- One row of the `conversations` table (columns used by the claims). -/
structure Conversation where
  id : String
  organizationId : String
  channelId : String
  contactId : String
  status : ConvStatus
  assignedAgentId : Option String
  lastMessageAt : Option Nat
  firstResponseAt : Option Nat
deriving DecidableEq, Repr

/-- One row of the `messages` table (columns used by the claims). -/
structure Message where
  id : String
  conversationId : String
  direction : Direction
  agentId : Option String
  body : Option String
  mediaUrl : Option String
  mediaType : Option String
  providerMessageId : Option String
  status : MsgStatus
  errorCode : Option String
  errorMessage : Option String
  createdAt : Nat
deriving DecidableEq, Repr

/-! ## Valkey store model (`ValkeyService`) -/

/-- The Valkey key/value store: each key holds an optional string value.
TTL expiry is a real-time phenomenon and is not modelled; `acquireLock`
records the requested TTL argument but the model never expires keys. -/
def ValkeyStore := String → Option String

/-- `ValkeyService.acquireLock(key, ttlMs, value)`:
`SET key value PX ttlMs NX` — set only if the key is absent; returns the
updated store and whether the reply was `OK`. -/
def acquireLock (store : ValkeyStore) (key : String) (_ttlMs : Nat) (value : String) :
    ValkeyStore × Bool :=
  match store key with
  | none => (fun k => if k = key then some value else store k, true)
  | some _ => (store, false)

/-- `ValkeyService.releaseLock(key)`: `DEL key` — deletes the key
unconditionally; the method takes no owner argument and never reads the
stored value. -/
def releaseLock (store : ValkeyStore) (key : String) : ValkeyStore :=
  fun k => if k = key then none else store k

/-! ## Conversation operations (`ConversationsService`) -/

/-- `ConversationsService.updateLastMessageAt(conversationId)` as it acts on
the targeted row: `SET lastMessageAt = new Date()` with no condition on the
stored value; `now` is the wall-clock instant at which the call runs. -/
def updateLastMessageAt (conv : Conversation) (now : Nat) : Conversation :=
  { conv with lastMessageAt := some now }

/-- Outcome of `ConversationsService.accept`. -/
inductive AcceptOutcome
  | success
  | conflictLocked
  | conflictNotPending
deriving DecidableEq, Repr

/-- Result of a sequential run of `ConversationsService.accept`: the Valkey
store, the conversation row and the audit trail after the call, plus the
outcome (success, or one of the two `ConflictException` sites). -/
structure AcceptResult where
  store : ValkeyStore
  conv : Conversation
  events : List EventRec
  outcome : AcceptOutcome

/-- `ConversationsService.accept(conversationId, agentId)`, sequential
semantics (no interleaving): acquire `lock:conversation:{id}` with TTL
5000 ms and owner value `agentId`; on failure throw Conflict without
touching the lock; otherwise re-read the row, throw Conflict if its status
is not PENDING, else set it to (ASSIGNED, agentId) and append an ACCEPTED
event; the `finally` block always runs `releaseLock`. -/
def accept (store : ValkeyStore) (conv : Conversation) (events : List EventRec)
    (agentId : String) : AcceptResult :=
  let lockKey := "lock:conversation:" ++ conv.id
  let acq := acquireLock store lockKey 5000 agentId
  if acq.2 = false then
    { store := store, conv := conv, events := events, outcome := .conflictLocked }
  else if conv.status ≠ .PENDING then
    { store := releaseLock acq.1 lockKey, conv := conv, events := events,
      outcome := .conflictNotPending }
  else
    { store := releaseLock acq.1 lockKey,
      conv := { conv with status := .ASSIGNED, assignedAgentId := some agentId },
      events := events ++ [⟨conv.id, .ACCEPTED, some agentId, none⟩],
      outcome := .success }

/-- `ConversationsService.reopen(conversationId)` acting on the found row
and the audit trail: no-op unless the status is COMPLETED; otherwise set
status to PENDING, clear `assignedAgentId`, and append a REOPENED event. -/
def reopen (conv : Conversation) (events : List EventRec) :
    Conversation × List EventRec :=
  if conv.status ≠ .COMPLETED then
    (conv, events)
  else
    ({ conv with status := .PENDING, assignedAgentId := none },
     events ++ [⟨conv.id, .REOPENED, none, none⟩])

/-! ## Message status updates (`MessagesService.updateStatus`) -/

/-- `MessagesService.findById(id)`: first row whose `id` column matches. -/
def findMsgById (msgs : List Message) (id : String) : Option Message :=
  msgs.find? (fun m => m.id = id)

/-- `MessagesService.updateStatus(id, status, errorCode, errorMessage)`:
load the row (NotFound if absent), then overwrite `status`, `errorCode`
and `errorMessage` with the arguments — the stored status is never
compared with the requested one — and append the corresponding
MESSAGE_DELIVERED / MESSAGE_READ / MESSAGE_FAILED event (none for SENT). -/
def updateStatus (msgs : List Message) (events : List EventRec) (id : String)
    (status : MsgStatus) (errorCode errorMessage : Option String) :
    Option (List Message × List EventRec × Message) :=
  match findMsgById msgs id with
  | none => none
  | some msg =>
      let updated : Message :=
        { msg with
          status := status
          errorCode := errorCode
          errorMessage := errorMessage }
      let msgs' := msgs.map (fun m => if m.id = id then updated else m)
      let eventType : Option EventType :=
        match status with
        | .DELIVERED => some .MESSAGE_DELIVERED
        | .READ => some .MESSAGE_READ
        | .FAILED => some .MESSAGE_FAILED
        | _ => none
      let events' :=
        match eventType with
        | some et => events ++ [⟨msg.conversationId, et, none, some id⟩]
        | none => events
      some (msgs', events', updated)

/-! ## Database state for the inbound-message pipeline
(`MessagesService.create` and its callees) -/

/-- Errors surfaced by the persistence layer: the unique-constraint
violation on `messages.provider_message_id`, and `NotFoundException`. -/
inductive DbErr
  | uniqueViolation
  | notFound
deriving DecidableEq, Repr

/-- The tables touched by the inbound-message pipeline. -/
structure AppDB where
  conversations : List Conversation
  messages : List Message
  events : List EventRec

/-- `ConversationsService.findById`: first row with the given id. -/
def findConvById (convs : List Conversation) (id : String) : Option Conversation :=
  convs.find? (fun c => c.id = id)

/-- Row-level UPDATE on the conversation with the given id. -/
def updateConvRow (convs : List Conversation) (id : String)
    (f : Conversation → Conversation) : List Conversation :=
  convs.map (fun c => if c.id = id then f c else c)

/-- `ConversationsService.updateLastMessageAt` on the whole table: an
unconditional UPDATE of the targeted row (a missing row makes it a no-op,
as an UPDATE matching zero rows). -/
def dbUpdateLastMessageAt (db : AppDB) (conversationId : String) (now : Nat) : AppDB :=
  { db with conversations :=
      updateConvRow db.conversations conversationId (fun c => updateLastMessageAt c now) }

/-- `ConversationsService.setFirstResponseAt`: re-read the row
(`findByIdOrFail`), set `firstResponseAt` only when it is still null. -/
def dbSetFirstResponseAt (db : AppDB) (conversationId : String) (now : Nat) :
    Except DbErr AppDB :=
  match findConvById db.conversations conversationId with
  | none => .error .notFound
  | some conv =>
      if conv.firstResponseAt = none then
        let convs' := updateConvRow db.conversations conversationId
          (fun c => { c with firstResponseAt := some now })
        .ok { db with conversations := convs' }
      else .ok db

/-- `ConversationsService.reopen` on the whole database: re-read the row
(`findByIdOrFail`), then apply the row-level `reopen`, which appends the
REOPENED event exactly when the status was COMPLETED. -/
def dbReopen (db : AppDB) (conversationId : String) : Except DbErr AppDB :=
  match findConvById db.conversations conversationId with
  | none => .error .notFound
  | some conv =>
      let r := reopen conv db.events
      .ok { db with
        conversations := updateConvRow db.conversations conversationId (fun _ => r.1)
        events := r.2 }

/-- `MessagesService.create(conversationId, direction, dto, agentId,
providerMessageId)`. `newId` stands for the UUID the database generates
for the inserted row and `now` for its `createdAt` instant. The INSERT
enforces the unique constraint on `providerMessageId` first; after a
successful insert the service updates `lastMessageAt`, appends the
MESSAGE_RECEIVED / MESSAGE_SENT event carrying the new message id, then
sets `firstResponseAt` (OUTBOUND) or reopens the conversation (INBOUND).
No transaction wraps these statements, so an error leaves the statements
already executed committed: the result carries the database as of the
point of failure together with the thrown error. -/
def messagesCreate (db : AppDB) (conversationId : String) (direction : Direction)
    (body mediaUrl mediaType : Option String) (agentId : Option String)
    (providerMessageId : Option String) (newId : String) (now : Nat) :
    AppDB × Except DbErr Message :=
  let dup :=
    match providerMessageId with
    | some p => db.messages.any (fun m => m.providerMessageId = some p)
    | none => false
  if dup then (db, .error .uniqueViolation)
  else
    let msg : Message :=
      { id := newId
        conversationId := conversationId
        direction := direction
        agentId := agentId
        body := body
        mediaUrl := mediaUrl
        mediaType := mediaType
        providerMessageId := providerMessageId
        status := if direction = .INBOUND then .DELIVERED else .PENDING
        errorCode := none
        errorMessage := none
        createdAt := now }
    let db1 := { db with messages := db.messages ++ [msg] }
    let db2 := dbUpdateLastMessageAt db1 conversationId now
    let eventType := if direction = .INBOUND then EventType.MESSAGE_RECEIVED
                     else EventType.MESSAGE_SENT
    let db3 := { db2 with events :=
      db2.events ++ [⟨conversationId, eventType, agentId, some msg.id⟩] }
    match direction with
    | .OUTBOUND =>
        match dbSetFirstResponseAt db3 conversationId now with
        | .ok d => (d, .ok msg)
        | .error e => (db3, .error e)
    | .INBOUND =>
        match dbReopen db3 conversationId with
        | .ok d => (d, .ok msg)
        | .error e => (db3, .error e)

/-- One delivery of an inbound webhook payload, at the message-creation
stage of `WebhooksService.handleWhatsAppMessage`: the job calls
`MessagesService.create` with the provider's message id; any error it
throws is caught by the controller's try/catch, which logs it and still
returns 200, so the returned flag (HTTP success) is always `true`. -/
def handleInboundJob (db : AppDB) (conversationId : String)
    (body mediaUrl mediaType : Option String) (pmid : String) (newId : String)
    (now : Nat) : AppDB × Bool :=
  ((messagesCreate db conversationId .INBOUND body mediaUrl mediaType none
      (some pmid) newId now).1, true)

/-- K deliveries of the same inbound webhook payload, in sequence. -/
def processInboundK (conversationId : String) (body mediaUrl mediaType : Option String)
    (pmid : String) (newId : String) (now : Nat) : AppDB → Nat → AppDB
  | db, 0 => db
  | db, k + 1 =>
      processInboundK conversationId body mediaUrl mediaType pmid newId now
        (handleInboundJob db conversationId body mediaUrl mediaType pmid newId now).1 k

/-! ## Cursor pagination (`MessagesService.findByConversation`) -/

/-- The `{data, nextCursor}` shape returned by `findByConversation`. -/
structure CursorPage where
  data : List Message
  nextCursor : Option String
deriving DecidableEq, Repr

/-- `MessagesService.findByConversation(conversationId, cursor, limit)`.
`msgs` is the conversation's message rows as the store returns them:
ordered by `createdAt` descending. The service fetches `limit + 1` rows
(restricted to `createdAt < cursorMessage.createdAt` when the cursor
resolves; an unresolvable cursor leaves the first-page query in place),
trims the extra row, and sets `nextCursor` to the last returned row's id
exactly when an extra row was fetched. -/
def findByConversation (msgs : List Message) (cursor : Option String) (limit : Nat) :
    CursorPage :=
  let rows :=
    match cursor with
    | none => msgs.take (limit + 1)
    | some c =>
        match findMsgById msgs c with
        | none => msgs.take (limit + 1)
        | some cm => (msgs.filter (fun m => m.createdAt < cm.createdAt)).take (limit + 1)
  let hasMore := limit < rows.length
  let data := if hasMore then rows.take limit else rows
  let nextCursor := if hasMore then data.getLast?.map (fun m => m.id) else none
  { data := data, nextCursor := nextCursor }

/-- The client's pagination loop: request a page, follow `nextCursor`
until it is null. `fuel` bounds the number of requests. -/
def paginateAll (msgs : List Message) (limit : Nat) : Nat → Option String → List Message
  | 0, _ => []
  | fuel + 1, cursor =>
      let page := findByConversation msgs cursor limit
      match page.nextCursor with
      | none => page.data
      | some c => page.data ++ paginateAll msgs limit fuel (some c)

/-- The rows arrive ordered by `createdAt` descending, strictly (the
persistence store assigns each insert a monotonic `createdAt`). -/
abbrev SortedDesc (msgs : List Message) : Prop :=
  msgs.Pairwise (fun a b => b.createdAt < a.createdAt)

/-- Message ids are primary keys, hence pairwise distinct. -/
abbrev DistinctIds (msgs : List Message) : Prop :=
  msgs.Pairwise (fun a b => a.id ≠ b.id)

/-- A cursor is valid for the decomposition `msgs = pre ++ s` when it is
absent on the first request (`pre = []`) or is the id of the last message
of the pages already served. -/
def ValidCursor (pre : List Message) (cursor : Option String) : Prop :=
  pre = [] ∧ cursor = none ∨ ∃ pl, pre.getLast? = some pl ∧ cursor = some pl.id

/-! ## The concurrent accept race (`ConversationsService.accept`
under interleaving of N callers) -/

/-- Program counter of one in-flight `accept` call. Each constructor marks
the point just before the next blocking operation: `start` before
`acquireLock`; `locked` before the re-read (`findByIdOrFail`); `writing`
before the UPDATE + ACCEPTED-event append; `releasingSuccess` /
`releasingConflict` in the `finally` block before `releaseLock`; the
`done` states carry the call's outcome (success, Conflict from the failed
lock acquisition, Conflict from the non-PENDING re-read). -/
inductive AcceptPC
  | start
  | locked
  | writing
  | releasingSuccess
  | releasingConflict
  | doneSuccess
  | doneConflictLock
  | doneConflictState
deriving DecidableEq, Repr

/-- Shared state of an N-way accept race: the conversation row, the Valkey
lock key for it (holding the index of the process whose agent id is
stored, `none` when the key is absent), the audit trail, and each
process's program counter. TTL expiry is not modelled. -/
structure RaceState (n : Nat) where
  conv : Conversation
  lock : Option (Fin n)
  events : List EventRec
  pcs : Fin n → AcceptPC

/-- One atomic step of process `i` of the race: `SET ... NX` at `start`
(failure throws Conflict immediately, without entering the try block); the
status re-read at `locked`; the UPDATE plus ACCEPTED event at `writing`
(both run while the lock is held, before the `finally`); the unconditional
`DEL` of `releaseLock` in the two releasing states. A finished process
does nothing. -/
def raceStep {n : Nat} (agents : Fin n → String) (s : RaceState n) (i : Fin n) :
    RaceState n :=
  match s.pcs i with
  | .start =>
      match s.lock with
      | none => { s with lock := some i, pcs := Function.update s.pcs i .locked }
      | some _ => { s with pcs := Function.update s.pcs i .doneConflictLock }
  | .locked =>
      if s.conv.status = .PENDING then
        { s with pcs := Function.update s.pcs i .writing }
      else
        { s with pcs := Function.update s.pcs i .releasingConflict }
  | .writing =>
      { s with
        conv := { s.conv with status := .ASSIGNED, assignedAgentId := some (agents i) }
        events := s.events ++ [⟨s.conv.id, .ACCEPTED, some (agents i), none⟩]
        pcs := Function.update s.pcs i .releasingSuccess }
  | .releasingSuccess =>
      { s with lock := none, pcs := Function.update s.pcs i .doneSuccess }
  | .releasingConflict =>
      { s with lock := none, pcs := Function.update s.pcs i .doneConflictState }
  | .doneSuccess => s
  | .doneConflictLock => s
  | .doneConflictState => s

/-- Initial race state: the conversation as read, lock key absent, no new
audit events, every caller about to run `acquireLock`. -/
def initRace {n : Nat} (conv0 : Conversation) : RaceState n :=
  { conv := conv0, lock := none, events := [], pcs := fun _ => .start }

/-- Run the race under a schedule: the list of process indices, in order,
that get to execute their next atomic step. -/
def runRace {n : Nat} (agents : Fin n → String) (conv0 : Conversation)
    (sched : List (Fin n)) : RaceState n :=
  sched.foldl (raceStep agents) (initRace conv0)

/-- A call that has returned (with either outcome). -/
def isDonePC : AcceptPC → Bool
  | .doneSuccess => true
  | .doneConflictLock => true
  | .doneConflictState => true
  | _ => false

/-- Program counters at which the call holds the lock (between a
successful `SET ... NX` and the `DEL` of its `finally` block). -/
def inCritPC : AcceptPC → Bool
  | .locked => true
  | .writing => true
  | .releasingSuccess => true
  | .releasingConflict => true
  | _ => false

/-- Program counters of a call that is going to succeed or has
succeeded. -/
def winnerPC : AcceptPC → Bool
  | .writing => true
  | .releasingSuccess => true
  | .doneSuccess => true
  | _ => false

/-- Program counters of a call whose UPDATE has already executed. -/
def writtenPC : AcceptPC → Bool
  | .releasingSuccess => true
  | .doneSuccess => true
  | _ => false

/-- The inductive invariant of the accept race, starting from the PENDING
conversation `conv0` with a free lock: the lock key is held exactly by
the call inside its critical section; at most one call ever reaches the
winning path; while the row is still PENDING nothing has been written;
once a call's UPDATE has run, the row is (ASSIGNED, its agent) and the
trail holds exactly its ACCEPTED event; a Conflict thrown at the re-read
means the row was already ASSIGNED; and a Conflict thrown at the lock
acquisition means the row is ASSIGNED or some call still holds the
lock. -/
structure RaceInv {n : Nat} (conv0 : Conversation) (agents : Fin n → String)
    (s : RaceState n) : Prop where
  lockIff : ∀ i, s.lock = some i ↔ inCritPC (s.pcs i) = true
  uniqueWinner : ∀ i j, winnerPC (s.pcs i) = true → winnerPC (s.pcs j) = true → i = j
  pendingClean : s.conv.status = .PENDING →
    s.conv = conv0 ∧ s.events = [] ∧ ∀ i, writtenPC (s.pcs i) = false
  writtenFacts : ∀ i, writtenPC (s.pcs i) = true →
    s.conv.status = .ASSIGNED ∧ s.conv.assignedAgentId = some (agents i) ∧
    s.events = [⟨conv0.id, .ACCEPTED, some (agents i), none⟩]
  statusCases : s.conv.status = .PENDING ∨ s.conv.status = .ASSIGNED
  assignedHasWriter : s.conv.status = .ASSIGNED → ∃ i, writtenPC (s.pcs i) = true
  conflictStateFacts : ∀ i,
    s.pcs i = .releasingConflict ∨ s.pcs i = .doneConflictState →
    s.conv.status = .ASSIGNED
  conflictLockFacts : (∃ i, s.pcs i = .doneConflictLock) →
    s.conv.status = .ASSIGNED ∨ s.lock ≠ none

/-! ## HMAC-SHA256 (FIPS 180-4 / RFC 2104, as used by `node:crypto` in
`WebhooksService.validateWhatsAppSignature`). Bytes are naturals below
256 and 32-bit words naturals below 2^32. -/

/-- Truncation to a 32-bit word. -/
def w32 (n : Nat) : Nat := n % 4294967296

/-- 32-bit right rotation. -/
def rotr (x n : Nat) : Nat := w32 ((x >>> n) ||| (x <<< (32 - n)))

/-- SHA-256 round constants (the first 32 fractional bits of the cube
roots of the first 64 primes, here as decimal words). -/
def sha256K : List Nat := [
    1116352408, 1899447441, 3049323471, 3921009573,
    961987163, 1508970993, 2453635748, 2870763221,
    3624381080, 310598401, 607225278, 1426881987,
    1925078388, 2162078206, 2614888103, 3248222580,
    3835390401, 4022224774, 264347078, 604807628,
    770255983, 1249150122, 1555081692, 1996064986,
    2554220882, 2821834349, 2952996808, 3210313671,
    3336571891, 3584528711, 113926993, 338241895,
    666307205, 773529912, 1294757372, 1396182291,
    1695183700, 1986661051, 2177026350, 2456956037,
    2730485921, 2820302411, 3259730800, 3345764771,
    3516065817, 3600352804, 4094571909, 275423344,
    430227734, 506948616, 659060556, 883997877,
    958139571, 1322822218, 1537002063, 1747873779,
    1955562222, 2024104815, 2227730452, 2361852424,
    2428436474, 2756734187, 3204031479, 3329325298]

/-- The eight SHA-256 working variables. -/
structure Hash8 where
  a : Nat
  b : Nat
  c : Nat
  d : Nat
  e : Nat
  f : Nat
  g : Nat
  h : Nat
deriving DecidableEq, Repr

/-- SHA-256 initial hash value (fractional bits of the square roots of
the first 8 primes, as decimal words). -/
def sha256H0 : Hash8 :=
  ⟨1779033703, 3144134277, 1013904242, 2773480762,
   1359893119, 2600822924, 528734635, 1541459225⟩

/-- Big-endian byte expansion of `n` into `k` bytes. -/
def toBE (k n : Nat) : List Nat :=
  (List.range k).map (fun i => n / 2 ^ (8 * (k - 1 - i)) % 256)

/-- SHA-256 padding: append `0x80`, zero bytes up to 56 mod 64, then the
bit length as an 8-byte big-endian integer. -/
def padMessage (msg : List Nat) : List Nat :=
  msg ++ [128] ++ List.replicate ((64 + 55 - msg.length % 64) % 64) 0
      ++ toBE 8 (8 * msg.length)

/-- Group bytes into big-endian 32-bit words. -/
def wordsOfBytes : List Nat → List Nat
  | b0 :: b1 :: b2 :: b3 :: rest =>
      (((b0 * 256 + b1) * 256 + b2) * 256 + b3) :: wordsOfBytes rest
  | _ => []

/-- Message-schedule extension: append `k` further words `w[t] =
σ1(w[t-2]) + w[t-7] + σ0(w[t-15]) + w[t-16]`. -/
def extendW (ws : List Nat) : Nat → List Nat
  | 0 => ws
  | k + 1 =>
      let t := ws.length
      let w15 := ws.getD (t - 15) 0
      let w2 := ws.getD (t - 2) 0
      let s0 := rotr w15 7 ^^^ rotr w15 18 ^^^ (w15 >>> 3)
      let s1 := rotr w2 17 ^^^ rotr w2 19 ^^^ (w2 >>> 10)
      extendW (ws ++ [w32 (ws.getD (t - 16) 0 + s0 + ws.getD (t - 7) 0 + s1)]) k

/-- One SHA-256 compression round with constant `k` and schedule word `w`. -/
def compressRound (k w : Nat) (st : Hash8) : Hash8 :=
  let bigS1 := rotr st.e 6 ^^^ rotr st.e 11 ^^^ rotr st.e 25
  let ch := (st.e &&& st.f) ^^^ ((4294967295 - st.e) &&& st.g)
  let t1 := w32 (st.h + bigS1 + ch + k + w)
  let bigS0 := rotr st.a 2 ^^^ rotr st.a 13 ^^^ rotr st.a 22
  let maj := (st.a &&& st.b) ^^^ (st.a &&& st.c) ^^^ (st.b &&& st.c)
  let t2 := w32 (bigS0 + maj)
  ⟨w32 (t1 + t2), st.a, st.b, st.c, w32 (st.d + t1), st.e, st.f, st.g⟩

/-- Compress one 64-byte block into the running hash. -/
def compressBlock (st : Hash8) (block : List Nat) : Hash8 :=
  let ws := extendW (wordsOfBytes block) 48
  let r := (sha256K.zip ws).foldl (fun acc kw => compressRound kw.1 kw.2 acc) st
  ⟨w32 (st.a + r.a), w32 (st.b + r.b), w32 (st.c + r.c), w32 (st.d + r.d),
   w32 (st.e + r.e), w32 (st.f + r.f), w32 (st.g + r.g), w32 (st.h + r.h)⟩

/-- Fold the compression over consecutive 64-byte blocks (`fuel` bounds the
recursion; callers pass the byte count). -/
def sha256Blocks : Hash8 → List Nat → Nat → Hash8
  | st, _, 0 => st
  | st, bytes, fuel + 1 =>
      match bytes with
      | [] => st
      | _ => sha256Blocks (compressBlock st (bytes.take 64)) (bytes.drop 64) fuel

/-- SHA-256 of a byte string, as 32 digest bytes. -/
def sha256 (msg : List Nat) : List Nat :=
  let padded := padMessage msg
  let st := sha256Blocks sha256H0 padded padded.length
  toBE 4 st.a ++ toBE 4 st.b ++ toBE 4 st.c ++ toBE 4 st.d ++
    toBE 4 st.e ++ toBE 4 st.f ++ toBE 4 st.g ++ toBE 4 st.h

/-- HMAC-SHA256 (block size 64): hash an over-long key first, zero-pad to
the block size, then compute `H((K ⊕ opad) ∥ H((K ⊕ ipad) ∥ m))`. -/
def hmacSha256 (key msg : List Nat) : List Nat :=
  let k0 := if 64 < key.length then sha256 key else key
  let k64 := k0 ++ List.replicate (64 - k0.length) 0
  sha256 ((k64.map (fun b => b ^^^ 92)) ++
    sha256 ((k64.map (fun b => b ^^^ 54)) ++ msg))

/-- Lowercase hex digit (ASCII code) of a value below 16. -/
def hexDigitChar (n : Nat) : Nat := if n < 10 then 48 + n else 87 + n

/-- Lowercase hex encoding of a byte string, as ASCII codes (what
`.digest("hex")` returns, viewed byte for byte). -/
def hexOfBytes (bs : List Nat) : List Nat :=
  bs.foldr (fun b acc => hexDigitChar (b / 16) :: hexDigitChar (b % 16) :: acc) []

/-- Hex HMAC-SHA256 digest as ASCII bytes:
`createHmac("sha256", appSecret).update(payload).digest("hex")`. -/
def hmacSha256Hex (key msg : List Nat) : List Nat := hexOfBytes (hmacSha256 key msg)

/-- ASCII codes of a literal string (header values are ASCII). -/
def asciiBytes (s : String) : List Nat := s.data.map Char.toNat

/-- `crypto.timingSafeEqual(a, b)`: throws `RangeError` when the buffers
have different lengths, otherwise reports byte equality. -/
def timingSafeEqual (a b : List Nat) : Except Unit Bool :=
  if a.length = b.length then .ok (decide (a = b)) else .error ()

/-- `WebhooksService.validateWhatsAppSignature(payload, signature,
appSecret)`, at the byte level: `false` when the header does not start
with `sha256=`; otherwise compare the hex HMAC of the payload with the
part after the prefix via `timingSafeEqual`, whose `RangeError` (digest of
the wrong byte length) propagates as the `.error` case. -/
def validateWhatsAppSignature (payload signature appSecret : List Nat) :
    Except Unit Bool :=
  if ¬ (asciiBytes "sha256=").isPrefixOf signature then .ok false
  else
    let expectedHash := hmacSha256Hex appSecret payload
    let providedHash := signature.drop 7
    timingSafeEqual expectedHash providedHash

/-- Outcome of `WebhooksController.handleWhatsApp`: 200 with the payload
handed to `processWhatsAppWebhook` (the only path that can write to
persistence), 401 `UnauthorizedException` before any processing, or the
uncaught `RangeError` surfacing as a 500 before any processing. -/
inductive WebhookResponse
  | processed
  | unauthorized
  | internalError
deriving DecidableEq, Repr

/-- JavaScript truthiness of an optional header / config string: absent
and empty strings are falsy. -/
def jsTruthy : Option (List Nat) → Bool
  | none => false
  | some [] => false
  | some (_ :: _) => true

/-- The signature gate of `WebhooksController.handleWhatsApp` (after the
channel lookup): verification runs only when `config.appSecret &&
signature` is truthy; an invalid result throws 401; a `timingSafeEqual`
`RangeError` escapes the handler (500); in every other case — including a
missing or empty signature header — the body is processed and 200
returned. -/
def handleWhatsApp (appSecret signature : Option (List Nat)) (rawBody : List Nat) :
    WebhookResponse :=
  if jsTruthy appSecret && jsTruthy signature then
    match validateWhatsAppSignature rawBody (signature.getD []) (appSecret.getD []) with
    | .error _ => .internalError
    | .ok false => .unauthorized
    | .ok true => .processed
  else .processed

/-! ## Concrete instances used to exercise the definitions -/

/-- A PENDING conversation as `accept` would re-read it. -/
def demoConvPending : Conversation :=
  { id := "c1", organizationId := "org1", channelId := "ch1", contactId := "ct1",
    status := .PENDING, assignedAgentId := none, lastMessageAt := none,
    firstResponseAt := none }

/-- A COMPLETED conversation (reopen scenarios). -/
def demoConvCompleted : Conversation :=
  { id := "c3", organizationId := "org1", channelId := "ch1", contactId := "ct1",
    status := .COMPLETED, assignedAgentId := none, lastMessageAt := some 50,
    firstResponseAt := some 20 }

/-- A conversation whose stored `lastMessageAt` is 10. -/
def demoConvLate : Conversation :=
  { demoConvPending with lastMessageAt := some 10 }

/-- A message already in status READ. -/
def demoMsgRead : Message :=
  { id := "m1", conversationId := "c1", direction := .OUTBOUND,
    agentId := some "a1", body := some "hi", mediaUrl := none, mediaType := none,
    providerMessageId := some "wamid.1", status := .READ, errorCode := none,
    errorMessage := none, createdAt := 7 }

/-- A Valkey store in which the conversation lock is held with stored
value `agent2`. -/
def demoStoreHeld : ValkeyStore :=
  fun k => if k = "lock:conversation:c1" then some "agent2" else none

/-- The empty Valkey store. -/
def demoStoreFree : ValkeyStore := fun _ => none

/-- A database holding just the COMPLETED conversation. -/
def demoDbCompleted : AppDB :=
  { conversations := [demoConvCompleted], messages := [], events := [] }

/-- A database holding just the PENDING conversation. -/
def demoDbPending : AppDB :=
  { conversations := [demoConvPending], messages := [], events := [] }

/-- Two racing agents, indexed by process. -/
def demoAgents : Fin 2 → String := fun i => if i.val = 0 then "agent1" else "agent2"

/-- A schedule of the two-process race: process 0 acquires the lock,
process 1 fails to acquire, process 0 re-reads, writes and releases. -/
def demoSched : List (Fin 2) := [0, 1, 0, 0, 0]

/-- Three messages of one conversation with strictly descending
`createdAt` and distinct ids. -/
def demoMsgsPage : List Message :=
  [ { demoMsgRead with id := "m3", providerMessageId := none, createdAt := 30 },
    { demoMsgRead with id := "m2", providerMessageId := none, createdAt := 20 },
    { demoMsgRead with id := "m1", providerMessageId := none, createdAt := 10 } ]

/-! ## Theorems -/

/-- Helper: after mapping the id-matching rows to `u` (with `u` keeping
the id), looking the id up finds `u`, provided the lookup succeeded
before. -/
theorem findMsgById_map_overwrite (msgs : List Message) (id : String) (u : Message)
    (hu : u.id = id) (h : (findMsgById msgs id).isSome = true) :
    findMsgById (msgs.map (fun m => if m.id = id then u else m)) id = some u := by
  induction msgs with
  | nil => simp [findMsgById] at h
  | cons m ms ih =>
      by_cases hm : m.id = id
      · simp [findMsgById, hm, hu]
      · have h' : (findMsgById ms id).isSome = true := by
          simpa [findMsgById, hm] using h
        simpa [findMsgById, hm] using ih h'

/-- C2, counterexample: the unlock run at the end of `accept` is
`releaseLock`, which deletes the lock key even though the stored value
(`agent2`) differs from the owner on whose behalf the release runs
(`agent1`): the delete is not conditioned on the stored value. -/
theorem releaseLock_ignores_owner_counterexample :
    demoStoreHeld "lock:conversation:c1" = some "agent2" ∧
    ("agent2" : String) ≠ "agent1" ∧
    releaseLock demoStoreHeld "lock:conversation:c1" "lock:conversation:c1" = none := by
  refine ⟨rfl, by decide, ?_⟩
  simp [releaseLock]

/-- C2, amended: `releaseLock` takes no owner argument and deletes the
key unconditionally (a plain `DEL`), whatever value is stored there, so a
stale holder can remove a newer holder's lock. -/
theorem releaseLock_deletes_unconditionally (store : ValkeyStore) (key : String) :
    releaseLock store key key = none := by
  simp [releaseLock]

/-- C9, counterexample: `updateLastMessageAt` called at clock value 5 on a
conversation whose stored `lastMessageAt` is 10 persists 5 — the older
timestamp is not rejected. -/
theorem updateLastMessageAt_regression_counterexample :
    demoConvLate.lastMessageAt = some 10 ∧ (5 : Nat) < 10 ∧
    (updateLastMessageAt demoConvLate 5).lastMessageAt = some 5 :=
  ⟨rfl, by decide, rfl⟩

/-- C9, amended: `updateLastMessageAt` unconditionally overwrites
`lastMessageAt` with the processing-time clock value; it neither receives
the message's own timestamp nor compares against the stored value, so
out-of-order processing can move `lastMessageAt` backwards. -/
theorem updateLastMessageAt_overwrites (conv : Conversation) (now : Nat) :
    (updateLastMessageAt conv now).lastMessageAt = some now := rfl

/-- C4, counterexample: a DELIVERED status callback applied to a message
already in READ is persisted (and its MESSAGE_DELIVERED event appended),
not dropped: `updateStatus` enforces no forward-only ordering. -/
theorem updateStatus_regression_counterexample :
    demoMsgRead.status = .READ ∧
    (updateStatus [demoMsgRead] [] "m1" .DELIVERED none none).map
        (fun r => r.2.2.status) = some .DELIVERED ∧
    (updateStatus [demoMsgRead] [] "m1" .DELIVERED none none).map
        (fun r => findMsgById r.1 "m1") =
      some (some { demoMsgRead with status := .DELIVERED }) := by
  refine ⟨rfl, by decide, by decide⟩

/-- C4, amended: `updateStatus` overwrites the stored status (and error
fields) with whatever the callback carries, for any prior status: the
persisted sequence is whatever order the callbacks arrive in, with no
backwards transition dropped. -/
theorem updateStatus_overwrites_unconditionally (msgs : List Message)
    (events : List EventRec) (id : String) (st : MsgStatus)
    (ec em : Option String) (msg : Message)
    (h : findMsgById msgs id = some msg) :
    ∃ r, updateStatus msgs events id st ec em = some r ∧
      r.2.2 = { msg with status := st, errorCode := ec, errorMessage := em } ∧
      findMsgById r.1 id =
        some { msg with status := st, errorCode := ec, errorMessage := em } := by
  have hid : msg.id = id := by
    have hp := List.find?_some h
    simpa using hp
  unfold updateStatus
  rw [h]
  exact ⟨_, rfl, rfl, findMsgById_map_overwrite msgs id _ hid (by simp [h])⟩

/-- Witness for the amended C4 theorem at the concrete READ message. -/
theorem updateStatus_overwrites_witness :
    ∃ r, updateStatus [demoMsgRead] [] "m1" .DELIVERED none none = some r ∧
      r.2.2 = { demoMsgRead with status := .DELIVERED } ∧
      findMsgById r.1 "m1" = some { demoMsgRead with status := .DELIVERED } :=
  updateStatus_overwrites_unconditionally [demoMsgRead] [] "m1" .DELIVERED
    none none demoMsgRead (by decide)

/-- C3: `accept` succeeds exactly from a PENDING re-read (given the lock
key is free); success sets the row to (ASSIGNED, agent) and appends an
ACCEPTED event; a non-PENDING re-read yields Conflict and leaves the row
and the audit trail unchanged. -/
theorem accept_requires_pending (store : ValkeyStore) (conv : Conversation)
    (events : List EventRec) (agent : String) :
    (conv.status = .PENDING → store ("lock:conversation:" ++ conv.id) = none →
      (accept store conv events agent).outcome = .success) ∧
    ((accept store conv events agent).outcome = .success →
      conv.status = .PENDING ∧
      (accept store conv events agent).conv =
        { conv with status := .ASSIGNED, assignedAgentId := some agent } ∧
      (accept store conv events agent).events =
        events ++ [⟨conv.id, .ACCEPTED, some agent, none⟩]) ∧
    (conv.status ≠ .PENDING →
      (accept store conv events agent).outcome ≠ .success ∧
      (accept store conv events agent).conv = conv ∧
      (accept store conv events agent).events = events) := by
  unfold accept acquireLock
  cases hstore : store ("lock:conversation:" ++ conv.id) with
  | none =>
      by_cases hst : conv.status = .PENDING <;>
        simp [hstore, hst]
  | some v =>
      by_cases hst : conv.status = .PENDING <;>
        simp [hstore, hst]

/-- Witness for C3 at the free store and the PENDING conversation. -/
theorem accept_requires_pending_witness :
    (accept demoStoreFree demoConvPending [] "agent1").outcome = .success :=
  (accept_requires_pending demoStoreFree demoConvPending [] "agent1").1 rfl rfl

/-- C10: when the channel has an `appSecret` configured but the request
carries no `X-Hub-Signature-256` header — or an empty one — the
`config.appSecret && signature` guard is falsy, so verification is
skipped and the payload is processed as if authenticated; a 401 can only
arise from a present, non-empty header. -/
theorem webhook_skips_verification_without_signature
    (appSecret rawBody : List Nat) (_hs : appSecret ≠ []) :
    handleWhatsApp (some appSecret) none rawBody = .processed ∧
    handleWhatsApp (some appSecret) (some []) rawBody = .processed ∧
    ∀ sig, handleWhatsApp (some appSecret) (some sig) rawBody ≠ .processed →
      sig ≠ [] := by
  refine ⟨?_, ?_, ?_⟩
  · simp [handleWhatsApp, jsTruthy]
  · simp [handleWhatsApp, jsTruthy]
  · intro sig hne
    rintro rfl
    exact hne (by simp [handleWhatsApp, jsTruthy])

/-- Witness for C10 at a concrete configured secret. -/
theorem webhook_skips_verification_witness :
    handleWhatsApp (some [107]) none [97] = .processed ∧
    handleWhatsApp (some [107]) (some []) [97] = .processed ∧
    ∀ sig, handleWhatsApp (some [107]) (some sig) [97] ≠ .processed →
      sig ≠ [] :=
  webhook_skips_verification_without_signature [107] [97] (by decide)

/-- Helper: looking up an id after an id-preserving row update maps the
previous lookup result. -/
theorem findConvById_updateConvRow (convs : List Conversation) (id : String)
    (f : Conversation → Conversation) (hf : ∀ c, (f c).id = c.id) :
    findConvById (updateConvRow convs id f) id = (findConvById convs id).map f := by
  induction convs with
  | nil => simp [findConvById, updateConvRow]
  | cons c cs ih =>
      by_cases hc : c.id = id
      · simp [findConvById, updateConvRow, hc, hf]
      · simpa [findConvById, updateConvRow, hc] using ih

/-- Helper: replacing the id-matching rows by `u` (with `u.id = id`) makes
the lookup return `u`, provided the lookup succeeded before. -/
theorem findConvById_overwrite (convs : List Conversation) (id : String)
    (u : Conversation) (hu : u.id = id)
    (h : (findConvById convs id).isSome = true) :
    findConvById (updateConvRow convs id (fun _ => u)) id = some u := by
  induction convs with
  | nil => simp [findConvById] at h
  | cons c cs ih =>
      by_cases hc : c.id = id
      · simp [findConvById, updateConvRow, hc, hu]
      · have h' : (findConvById cs id).isSome = true := by
          simpa [findConvById, hc] using h
        simpa [findConvById, updateConvRow, hc] using ih h'

/-- C8, counterexample: inserting an INBOUND message into the COMPLETED
conversation `c3` does transition it to PENDING with `assignedAgentId`
cleared, but the audit trail reads `[MESSAGE_RECEIVED, REOPENED]`:
`MessagesService.create` appends the MESSAGE_RECEIVED event first and
only then calls `reopen`, so REOPENED is not before MESSAGE_RECEIVED. -/
theorem reopen_after_received_counterexample :
    ((messagesCreate demoDbCompleted "c3" .INBOUND (some "hi") none none none
        (some "wamid.9") "m9" 100).1.events.map (fun e => e.eventType) =
      [.MESSAGE_RECEIVED, .REOPENED]) ∧
    ((findConvById (messagesCreate demoDbCompleted "c3" .INBOUND (some "hi")
        none none none (some "wamid.9") "m9" 100).1.conversations "c3").map
      (fun c => (c.status, c.assignedAgentId)) = some (.PENDING, none)) := by
  refine ⟨by decide, by decide⟩

/-- C8, amended: for a COMPLETED conversation, inserting an INBOUND
message transitions it to PENDING, clears `assignedAgentId` (and stamps
`lastMessageAt`), and appends the REOPENED event immediately after — not
before — the MESSAGE_RECEIVED event. -/
theorem inbound_reopens_completed (db : AppDB) (cid : String) (conv : Conversation)
    (body mediaUrl mediaType : Option String) (pmid newId : String) (now : Nat)
    (hfind : findConvById db.conversations cid = some conv)
    (hstatus : conv.status = .COMPLETED)
    (hfresh : ∀ m ∈ db.messages, m.providerMessageId ≠ some pmid) :
    ((messagesCreate db cid .INBOUND body mediaUrl mediaType none (some pmid)
        newId now).2 =
      .ok { id := newId, conversationId := cid, direction := .INBOUND,
            agentId := none, body := body, mediaUrl := mediaUrl,
            mediaType := mediaType, providerMessageId := some pmid,
            status := .DELIVERED, errorCode := none, errorMessage := none,
            createdAt := now }) ∧
    (findConvById (messagesCreate db cid .INBOUND body mediaUrl mediaType none
        (some pmid) newId now).1.conversations cid =
      some { conv with
             status := .PENDING
             assignedAgentId := none
             lastMessageAt := some now }) ∧
    ((messagesCreate db cid .INBOUND body mediaUrl mediaType none (some pmid)
        newId now).1.events =
      db.events ++ [⟨cid, .MESSAGE_RECEIVED, none, some newId⟩,
                    ⟨cid, .REOPENED, none, none⟩]) := by
  have hcid : conv.id = cid := by simpa using List.find?_some hfind
  have hdup : db.messages.any (fun m => m.providerMessageId = some pmid) = false := by
    simp only [List.any_eq_false, decide_eq_true_eq]
    intro m hm
    exact hfresh m hm
  have hfind3 :
      findConvById (updateConvRow db.conversations cid
        (fun c => updateLastMessageAt c now)) cid =
      some { conv with lastMessageAt := some now } := by
    rw [findConvById_updateConvRow db.conversations cid
      (fun c => updateLastMessageAt c now) (fun c => rfl), hfind]
    rfl
  simp [messagesCreate, dbUpdateLastMessageAt, dbReopen, reopen, hdup, hfind3,
    hstatus, hcid]
  exact findConvById_overwrite _ _ _ rfl (by simp [hfind3])

/-- Witness for the amended C8 theorem at the COMPLETED conversation. -/
theorem inbound_reopens_completed_witness :
    (messagesCreate demoDbCompleted "c3" .INBOUND (some "hi") none none none
        (some "wamid.9") "m9" 100).2 =
      .ok { id := "m9", conversationId := "c3", direction := .INBOUND,
            agentId := none, body := some "hi", mediaUrl := none,
            mediaType := none, providerMessageId := some "wamid.9",
            status := .DELIVERED, errorCode := none, errorMessage := none,
            createdAt := 100 } :=
  (inbound_reopens_completed demoDbCompleted "c3" demoConvCompleted (some "hi")
    none none "wamid.9" "m9" 100 (by decide) rfl (by simp [demoDbCompleted])).1

/-- Helper: a job whose provider message id already exists fails its
INSERT immediately (unique-constraint violation), the controller catches
the error, and the database is untouched. -/
theorem handleInboundJob_duplicate (db : AppDB) (cid : String)
    (body mediaUrl mediaType : Option String) (pmid newId : String) (now : Nat)
    (hdup : db.messages.any (fun m => m.providerMessageId = some pmid) = true) :
    handleInboundJob db cid body mediaUrl mediaType pmid newId now = (db, true) := by
  simp [handleInboundJob, messagesCreate, hdup]

/-- Helper: a job whose provider message id is fresh appends exactly one
message row and one MESSAGE_RECEIVED event (plus possibly a REOPENED
event from the reopen-on-inbound step). -/
theorem handleInboundJob_structure (db : AppDB) (cid : String)
    (body mediaUrl mediaType : Option String) (pmid newId : String) (now : Nat)
    (hdup : db.messages.any (fun m => m.providerMessageId = some pmid) = false) :
    ∃ tail,
      (handleInboundJob db cid body mediaUrl mediaType pmid newId now).1.messages =
        db.messages ++
          [{ id := newId, conversationId := cid, direction := .INBOUND,
             agentId := none, body := body, mediaUrl := mediaUrl,
             mediaType := mediaType, providerMessageId := some pmid,
             status := .DELIVERED, errorCode := none, errorMessage := none,
             createdAt := now }] ∧
      (handleInboundJob db cid body mediaUrl mediaType pmid newId now).1.events =
        db.events ++ [⟨cid, .MESSAGE_RECEIVED, none, some newId⟩] ++ tail ∧
      ∀ e ∈ tail, e.eventType = .REOPENED := by
  simp only [handleInboundJob, messagesCreate, hdup, Bool.false_eq_true, if_false,
    dbUpdateLastMessageAt, dbReopen]
  cases hf : findConvById (updateConvRow db.conversations cid
      (fun c => updateLastMessageAt c now)) cid with
  | none => exact ⟨[], by simp [hf], by simp [hf], by simp⟩
  | some c =>
      by_cases hc : c.status = .COMPLETED
      · refine ⟨[⟨c.id, .REOPENED, none, none⟩], by simp [hf, reopen, hc], ?_, by simp⟩
        simp [hf, reopen, hc]
      · exact ⟨[], by simp [hf, reopen, hc], by simp [hf, reopen, hc], by simp⟩

/-- Helper: once a row with the provider message id exists, any number of
further deliveries of the job leave the database unchanged. -/
theorem processInboundK_duplicate (cid : String)
    (body mediaUrl mediaType : Option String) (pmid newId : String) (now : Nat)
    (k : Nat) (db : AppDB)
    (hdup : db.messages.any (fun m => m.providerMessageId = some pmid) = true) :
    processInboundK cid body mediaUrl mediaType pmid newId now db k = db := by
  induction k with
  | zero => rfl
  | succ k ih =>
      show processInboundK cid body mediaUrl mediaType pmid newId now
        (handleInboundJob db cid body mediaUrl mediaType pmid newId now).1 k = db
      rw [handleInboundJob_duplicate db cid body mediaUrl mediaType pmid newId now hdup]
      exact ih

/-- C5: delivering the same inbound payload K ≥ 1 times yields exactly one
message row carrying the provider message id and exactly one
MESSAGE_RECEIVED event for the created message; every duplicate run hits
the unique-constraint error inside its INSERT, which the controller
swallows (HTTP 200), so duplicates change nothing. -/
theorem webhook_duplicates_collapse (db0 : AppDB) (cid : String)
    (body mediaUrl mediaType : Option String) (pmid newId : String) (now : Nat)
    (K : Nat) (hK : 1 ≤ K)
    (hfresh : ∀ m ∈ db0.messages, m.providerMessageId ≠ some pmid)
    (hev : ∀ e ∈ db0.events,
      ¬(e.eventType = .MESSAGE_RECEIVED ∧ e.messageId = some newId)) :
    ((processInboundK cid body mediaUrl mediaType pmid newId now db0 K).messages.filter
        (fun m => m.providerMessageId = some pmid)).length = 1 ∧
    ((processInboundK cid body mediaUrl mediaType pmid newId now db0 K).events.filter
        (fun e => e.eventType = .MESSAGE_RECEIVED ∧ e.messageId = some newId)).length
      = 1 ∧
    (handleInboundJob (processInboundK cid body mediaUrl mediaType pmid newId now db0 K)
        cid body mediaUrl mediaType pmid newId now).2 = true := by
  obtain ⟨k, rfl⟩ : ∃ k, K = k + 1 := ⟨K - 1, by omega⟩
  have hdup0 : db0.messages.any (fun m => m.providerMessageId = some pmid) = false := by
    simp only [List.any_eq_false, decide_eq_true_eq]
    exact hfresh
  obtain ⟨tail, hm, he, ht⟩ :=
    handleInboundJob_structure db0 cid body mediaUrl mediaType pmid newId now hdup0
  have hstep :
      processInboundK cid body mediaUrl mediaType pmid newId now db0 (k + 1) =
      processInboundK cid body mediaUrl mediaType pmid newId now
        (handleInboundJob db0 cid body mediaUrl mediaType pmid newId now).1 k := rfl
  have hdup1 :
      ((handleInboundJob db0 cid body mediaUrl mediaType pmid newId now).1).messages.any
        (fun m => m.providerMessageId = some pmid) = true := by
    rw [hm]
    simp
  rw [hstep, processInboundK_duplicate cid body mediaUrl mediaType pmid newId now k _ hdup1]
  refine ⟨?_, ?_, rfl⟩
  · rw [hm, List.filter_append]
    have h0 : db0.messages.filter (fun m => m.providerMessageId = some pmid) = [] := by
      simp only [List.filter_eq_nil_iff, decide_eq_true_eq]
      exact hfresh
    rw [h0]
    simp
  · rw [he, List.filter_append, List.filter_append]
    have h0 : db0.events.filter
        (fun e => e.eventType = .MESSAGE_RECEIVED ∧ e.messageId = some newId) = [] := by
      simp only [List.filter_eq_nil_iff, decide_eq_true_eq]
      exact hev
    have h1 : tail.filter
        (fun e => e.eventType = .MESSAGE_RECEIVED ∧ e.messageId = some newId) = [] := by
      simp only [List.filter_eq_nil_iff, decide_eq_true_eq]
      intro e hemem hcontra
      have := ht e hemem
      rw [this] at hcontra
      exact absurd hcontra.1 (by decide)
    rw [h0, h1]
    simp

/-- Witness for C5: three deliveries into the PENDING-conversation
database create one row and one MESSAGE_RECEIVED event. -/
theorem webhook_duplicates_collapse_witness :
    ((processInboundK "c1" (some "hi") none none "wamid.7" "m7" 40 demoDbPending
        3).messages.filter (fun m => m.providerMessageId = some "wamid.7")).length
      = 1 ∧
    ((processInboundK "c1" (some "hi") none none "wamid.7" "m7" 40 demoDbPending
        3).events.filter (fun e => e.eventType = .MESSAGE_RECEIVED ∧
          e.messageId = some "m7")).length = 1 ∧
    (handleInboundJob (processInboundK "c1" (some "hi") none none "wamid.7" "m7" 40
        demoDbPending 3) "c1" (some "hi") none none "wamid.7" "m7" 40).2 = true :=
  webhook_duplicates_collapse demoDbPending "c1" (some "hi") none none "wamid.7"
    "m7" 40 3 (by decide) (by simp [demoDbPending]) (by simp [demoDbPending])

/-- Helper: `toBE` produces exactly `k` bytes. -/
theorem toBE_length (k n : Nat) : (toBE k n).length = k := by
  simp [toBE]

/-- Helper: a SHA-256 digest is 32 bytes, whatever the message. -/
theorem sha256_length (msg : List Nat) : (sha256 msg).length = 32 := by
  simp [sha256, toBE]

/-- Helper: hex encoding doubles the length. -/
theorem hexOfBytes_length (bs : List Nat) : (hexOfBytes bs).length = 2 * bs.length := by
  induction bs with
  | nil => rfl
  | cons b bs ih =>
      have hc : hexOfBytes (b :: bs) =
          hexDigitChar (b / 16) :: hexDigitChar (b % 16) :: hexOfBytes bs := rfl
      rw [hc]
      simp only [List.length_cons, ih]
      omega

/-- Helper: a hex HMAC-SHA256 digest is 64 ASCII bytes. -/
theorem hmacSha256Hex_length (key msg : List Nat) :
    (hmacSha256Hex key msg).length = 64 := by
  simp [hmacSha256Hex, hexOfBytes_length, hmacSha256, sha256_length]

/-- Helper: on a `sha256=`-prefixed header, signature validation is the
timing-safe comparison of the expected hex digest with the rest of the
header. -/
theorem validate_header_form (payload secret provided : List Nat) :
    validateWhatsAppSignature payload (asciiBytes "sha256=" ++ provided) secret =
      timingSafeEqual (hmacSha256Hex secret payload) provided := by
  unfold validateWhatsAppSignature
  rw [if_neg (by simp [List.isPrefixOf_iff_prefix])]
  have h7 : (asciiBytes "sha256=" ++ provided).drop 7 = provided := by
    have hd := List.drop_left (asciiBytes "sha256=") provided
    have hl : (asciiBytes "sha256=").length = 7 := rfl
    rwa [hl] at hd
  rw [h7]

/-- C6, counterexample: a digest of the wrong length (header
`sha256=00`, a 2-byte digest) makes `crypto.timingSafeEqual` throw
`RangeError`; the exception escapes the controller, surfacing as a 500
rather than the 401 the claim requires (processing is still skipped). -/
theorem signature_wrong_length_counterexample :
    handleWhatsApp (some (asciiBytes "test-secret")) (some (asciiBytes "sha256=00"))
        (asciiBytes "body") = .internalError ∧
    WebhookResponse.internalError ≠ .unauthorized := by
  have hval : validateWhatsAppSignature (asciiBytes "body") (asciiBytes "sha256=00")
      (asciiBytes "test-secret") = .error () := by
    unfold validateWhatsAppSignature
    rw [if_neg (by decide)]
    unfold timingSafeEqual
    rw [if_neg (by rw [hmacSha256Hex_length]; decide)]
  refine ⟨?_, by decide⟩
  unfold handleWhatsApp
  rw [if_pos (by decide)]
  simp only [Option.getD_some, hval]

/-- C6, amended: with a configured secret, the gate accepts exactly the
header `sha256=` + the hex HMAC-SHA256 of the raw body; a 64-byte digest
differing from it — in particular any alteration of body or secret that
changes the digest — is rejected with 401, as is a header without the
`sha256=` marker; but a digest whose byte length is not 64 makes
`timingSafeEqual` throw, surfacing as a 500 instead of a 401. No payload
is processed (hence nothing persisted) in any rejection case. -/
theorem signature_verification_amended (secret body : List Nat) (hsec : secret ≠ []) :
    (handleWhatsApp (some secret)
        (some (asciiBytes "sha256=" ++ hmacSha256Hex secret body)) body =
      .processed) ∧
    (∀ provided, provided.length = 64 → provided ≠ hmacSha256Hex secret body →
      handleWhatsApp (some secret) (some (asciiBytes "sha256=" ++ provided)) body =
        .unauthorized) ∧
    (∀ sig, sig ≠ [] → (asciiBytes "sha256=").isPrefixOf sig = false →
      handleWhatsApp (some secret) (some sig) body = .unauthorized) ∧
    (∀ provided, provided.length ≠ 64 →
      handleWhatsApp (some secret) (some (asciiBytes "sha256=" ++ provided)) body =
        .internalError) ∧
    (∀ secret2 body2, secret2 ≠ [] →
      hmacSha256Hex secret2 body2 ≠ hmacSha256Hex secret body →
      handleWhatsApp (some secret2)
        (some (asciiBytes "sha256=" ++ hmacSha256Hex secret body)) body2 =
        .unauthorized) := by
  have hsec1 : jsTruthy (some secret) = true := by
    cases secret with
    | nil => exact absurd rfl hsec
    | cons a l => rfl
  have hj : ∀ provided : List Nat,
      jsTruthy (some (asciiBytes "sha256=" ++ provided)) = true := fun _ => rfl
  refine ⟨?_, ?_, ?_, ?_, ?_⟩
  · unfold handleWhatsApp
    rw [if_pos (by simp [hsec1, hj])]
    simp only [Option.getD_some]
    rw [validate_header_form]
    unfold timingSafeEqual
    rw [if_pos rfl]
    simp
  · intro provided hlen hne
    unfold handleWhatsApp
    rw [if_pos (by simp [hsec1, hj])]
    simp only [Option.getD_some]
    rw [validate_header_form]
    unfold timingSafeEqual
    rw [if_pos (by rw [hmacSha256Hex_length, hlen])]
    have hd : decide (hmacSha256Hex secret body = provided) = false := by
      simp only [decide_eq_false_iff_not]
      exact fun h => hne h.symm
    rw [hd]
  · intro sig hne hpre
    have hjs : jsTruthy (some sig) = true := by
      cases sig with
      | nil => exact absurd rfl hne
      | cons a l => rfl
    unfold handleWhatsApp
    rw [if_pos (by simp [hsec1, hjs])]
    simp only [Option.getD_some]
    unfold validateWhatsAppSignature
    rw [if_pos (by simp [hpre])]
  · intro provided hlen
    unfold handleWhatsApp
    rw [if_pos (by simp [hsec1, hj])]
    simp only [Option.getD_some]
    rw [validate_header_form]
    unfold timingSafeEqual
    rw [if_neg (by rw [hmacSha256Hex_length]; exact fun h => hlen h.symm)]
  · intro secret2 body2 hs2 hneq
    have hsec2 : jsTruthy (some secret2) = true := by
      cases secret2 with
      | nil => exact absurd rfl hs2
      | cons a l => rfl
    unfold handleWhatsApp
    rw [if_pos (by simp [hsec2, hj])]
    simp only [Option.getD_some]
    rw [validate_header_form]
    unfold timingSafeEqual
    rw [if_pos (by rw [hmacSha256Hex_length, hmacSha256Hex_length])]
    have hd : decide (hmacSha256Hex secret2 body2 = hmacSha256Hex secret body) =
        false := by
      simp only [decide_eq_false_iff_not]
      exact hneq
    rw [hd]

/-- Witness for the amended C6 theorem: the correctly signed request at a
concrete one-byte secret and body is processed. -/
theorem signature_verification_witness :
    handleWhatsApp (some [107])
      (some (asciiBytes "sha256=" ++ hmacSha256Hex [107] [97])) [97] = .processed :=
  (signature_verification_amended [107] [97] (by decide)).1

/-- Helper: with pairwise-distinct ids, looking a member's id up finds
exactly that member. -/
theorem find_eq_of_mem_distinct (msgs : List Message) (hids : DistinctIds msgs)
    (x : Message) (hx : x ∈ msgs) :
    msgs.find? (fun m => m.id = x.id) = some x := by
  induction msgs with
  | nil => cases hx
  | cons m ms ih =>
      rcases List.mem_cons.mp hx with rfl | hx'
      · exact List.find?_cons_of_pos ms (by simp)
      · have hne : m.id ≠ x.id := (List.pairwise_cons.mp hids).1 x hx'
        rw [List.find?_cons_of_neg ms (by simp [hne])]
        exact ih (List.pairwise_cons.mp hids).2 hx'

/-- Helper: in a strictly `createdAt`-descending list `pre ++ s`,
filtering for rows strictly older than the last row of `pre` yields
exactly `s`. -/
theorem filter_lt_getLast_of_sorted (pre s : List Message) (pl : Message)
    (hpl : pre.getLast? = some pl) (hsorted : SortedDesc (pre ++ s)) :
    (pre ++ s).filter (fun m => m.createdAt < pl.createdAt) = s := by
  obtain ⟨pre0, rfl⟩ := List.getLast?_eq_some_iff.mp hpl
  rw [List.append_assoc] at hsorted ⊢
  rw [List.filter_append]
  obtain ⟨hpre0, hrest, hcross⟩ := List.pairwise_append.mp hsorted
  have h1 : pre0.filter (fun m => m.createdAt < pl.createdAt) = [] := by
    simp only [List.filter_eq_nil_iff, decide_eq_true_eq]
    intro a ha
    have hlt : pl.createdAt < a.createdAt := hcross a ha pl (by simp)
    omega
  have h2 : ([pl] ++ s).filter (fun m => m.createdAt < pl.createdAt) = s := by
    rw [List.filter_append]
    have h2a : [pl].filter (fun m => m.createdAt < pl.createdAt) = [] := by simp
    have h2b : s.filter (fun m => m.createdAt < pl.createdAt) = s := by
      apply List.filter_eq_self.mpr
      intro a ha
      have := (List.pairwise_cons.mp hrest).1 a ha
      simpa using this
    rw [h2a, h2b, List.nil_append]
  rw [h1, h2, List.nil_append]

/-- Helper: under a valid cursor, the page served from the whole ordered
result set is the first page of the remaining suffix. -/
theorem findByConversation_cursor_eq (msgs pre s : List Message) (L : Nat)
    (cursor : Option String) (hdecomp : msgs = pre ++ s)
    (hsorted : SortedDesc msgs) (hids : DistinctIds msgs)
    (hcursor : ValidCursor pre cursor) :
    findByConversation msgs cursor L = findByConversation s none L := by
  rcases hcursor with ⟨hpre, hcur⟩ | ⟨pl, hpl, hcur⟩
  · subst hcur hpre
    simp only [List.nil_append] at hdecomp
    subst hdecomp
    rfl
  · subst hcur
    have hplmem : pl ∈ msgs := by
      rw [hdecomp]
      obtain ⟨pre0, rfl⟩ := List.getLast?_eq_some_iff.mp hpl
      simp
    have hfindpl : findMsgById msgs pl.id = some pl :=
      find_eq_of_mem_distinct msgs hids pl hplmem
    have hfilter : msgs.filter (fun m => m.createdAt < pl.createdAt) = s := by
      rw [hdecomp]
      exact filter_lt_getLast_of_sorted pre s pl hpl (hdecomp ▸ hsorted)
    unfold findByConversation
    simp only [hfindpl, hfilter]

/-- Helper: from any valid cursor state with remaining suffix `s`, the
client pagination loop returns exactly `s` (given enough fuel). -/
theorem paginateAll_suffix (msgs : List Message) (L : Nat) (hL : 1 ≤ L)
    (hsorted : SortedDesc msgs) (hids : DistinctIds msgs) :
    ∀ fuel (pre s : List Message) (cursor : Option String), msgs = pre ++ s →
      s.length + 1 ≤ fuel → ValidCursor pre cursor →
      paginateAll msgs L fuel cursor = s := by
  intro fuel
  induction fuel with
  | zero => intro pre s cursor _ hf _; omega
  | succ fuel ih =>
      intro pre s cursor hdecomp hf hcursor
      have hpage0 : findByConversation msgs cursor L = findByConversation s none L :=
        findByConversation_cursor_eq msgs pre s L cursor hdecomp hsorted hids hcursor
      by_cases hmore : L < s.length
      · have hlen1 : (s.take (L + 1)).length = L + 1 := by
          simp [List.length_take]
          omega
        have htt : (s.take (L + 1)).take L = s.take L := by
          rw [List.take_take]
          congr 1
          omega
        have htake_ne : s.take L ≠ [] := by
          have : (s.take L).length = L := by
            simp [List.length_take]
            omega
          intro hnil
          rw [hnil] at this
          simp at this
          omega
        obtain ⟨pl', hgetlast⟩ : ∃ x, (s.take L).getLast? = some x := by
          cases hx : (s.take L).getLast? with
          | none => exact absurd (List.getLast?_eq_none_iff.mp hx) htake_ne
          | some x => exact ⟨x, rfl⟩
        have hpageeq : findByConversation s none L =
            { data := s.take L, nextCursor := some pl'.id } := by
          unfold findByConversation
          simp [hlen1, htt, hgetlast]
        have hstep : paginateAll msgs L (fuel + 1) cursor =
            s.take L ++ paginateAll msgs L fuel (some pl'.id) := by
          rw [paginateAll, hpage0, hpageeq]
        rw [hstep]
        have hdecomp' : msgs = (pre ++ s.take L) ++ s.drop L := by
          rw [List.append_assoc, List.take_append_drop]
          exact hdecomp
        have hfuel' : (s.drop L).length + 1 ≤ fuel := by
          rw [List.length_drop]
          omega
        have hcursor' : ValidCursor (pre ++ s.take L) (some pl'.id) :=
          Or.inr ⟨pl', by rw [List.getLast?_append_of_ne_nil pre htake_ne]; exact hgetlast,
            rfl⟩
        rw [ih (pre ++ s.take L) (s.drop L) (some pl'.id) hdecomp' hfuel' hcursor']
        exact List.take_append_drop L s
      · have hsl : s.length ≤ L := Nat.not_lt.mp hmore
        have hrows : s.take (L + 1) = s := List.take_of_length_le (by omega)
        have hcond : ¬ L < s.length := by omega
        have hpageeq : findByConversation s none L =
            { data := s, nextCursor := none } := by
          unfold findByConversation
          simp [hrows, hcond]
        rw [paginateAll, hpage0, hpageeq]

/-- Helper: when more than `L` rows remain, the page is the first `L`
rows and `nextCursor` is the id of the `L`-th row. -/
theorem findByConversation_more (s : List Message) (L : Nat) (hL : 1 ≤ L)
    (hmore : L < s.length) :
    ∃ pl', s[L - 1]? = some pl' ∧ (s.take L).getLast? = some pl' ∧
      findByConversation s none L = { data := s.take L, nextCursor := some pl'.id } := by
  have hlen1 : (s.take (L + 1)).length = L + 1 := by
    simp [List.length_take]
    omega
  have htt : (s.take (L + 1)).take L = s.take L := by
    rw [List.take_take]
    congr 1
    omega
  have hlenL : (s.take L).length = L := by
    simp [List.length_take]
    omega
  obtain ⟨pl', hpl'⟩ : ∃ x, s[L - 1]? = some x := by
    have : L - 1 < s.length := by omega
    exact ⟨s[L - 1], List.getElem?_eq_getElem this⟩
  have hgetlast : (s.take L).getLast? = some pl' := by
    rw [List.getLast?_eq_getElem?, hlenL, List.getElem?_take]
    rw [if_pos (by omega)]
    exact hpl'
  refine ⟨pl', hpl', hgetlast, ?_⟩
  unfold findByConversation
  simp [hlen1, htt, hgetlast]

/-- Helper: when at most `L` rows remain, the page is all of them and
`nextCursor` is null. -/
theorem findByConversation_last (s : List Message) (L : Nat) (hle : s.length ≤ L) :
    findByConversation s none L = { data := s, nextCursor := none } := by
  have hrows : s.take (L + 1) = s := List.take_of_length_le (by omega)
  have hcond : ¬ L < s.length := by omega
  unfold findByConversation
  simp [hrows, hcond]

/-- C7: starting without a cursor and following `nextCursor` until it is
null returns every message of the conversation exactly once, in the
stored descending `createdAt` order; and on every page served from a
valid cursor state, `nextCursor` is null exactly when the page holds
fewer than `L` rows or its last row is the conversation's final (oldest)
message. -/
theorem findByConversation_pagination (msgs : List Message) (L : Nat)
    (hL : 1 ≤ L) (hsorted : SortedDesc msgs) (hids : DistinctIds msgs) :
    paginateAll msgs L (msgs.length + 1) none = msgs ∧
    ∀ (pre s : List Message) (cursor : Option String), msgs = pre ++ s →
      ValidCursor pre cursor →
      ((findByConversation msgs cursor L).nextCursor = none ↔
        (findByConversation msgs cursor L).data.length < L ∨
        (findByConversation msgs cursor L).data.getLast? = msgs.getLast?) := by
  constructor
  · exact paginateAll_suffix msgs L hL hsorted hids (msgs.length + 1) [] msgs none
      rfl (by omega) (Or.inl ⟨rfl, rfl⟩)
  · intro pre s cursor hdecomp hcursor
    rw [findByConversation_cursor_eq msgs pre s L cursor hdecomp hsorted hids hcursor]
    by_cases hmore : L < s.length
    · obtain ⟨pl', hpl', hgetlast, hpageeq⟩ := findByConversation_more s L hL hmore
      rw [hpageeq]
      have hlenL : (s.take L).length = L := by
        simp [List.length_take]
        omega
      have hs_ne : s ≠ [] := by
        intro hnil
        rw [hnil] at hmore
        simp at hmore
      have hlast_msgs : msgs.getLast? = s.getLast? := by
        rw [hdecomp]
        exact List.getLast?_append_of_ne_nil pre hs_ne
      have hs_sorted : s.Pairwise (fun a b => b.createdAt < a.createdAt) := by
        have := hdecomp ▸ hsorted
        exact (List.pairwise_append.mp this).2.1
      have hdiff : some pl' ≠ s.getLast? := by
        rw [List.getLast?_eq_getElem?]
        intro heq
        have hL1 : L - 1 < s.length := by omega
        have hlast1 : s.length - 1 < s.length := by omega
        have he1 : s[L - 1] = pl' := by
          have := List.getElem?_eq_getElem hL1
          rw [this] at hpl'
          exact Option.some.inj hpl'
        have he2 : s[s.length - 1] = pl' := by
          have := List.getElem?_eq_getElem hlast1
          rw [this] at heq
          exact (Option.some.inj heq).symm
        have hij : L - 1 < s.length - 1 := by omega
        have hlt := (List.pairwise_iff_getElem.mp hs_sorted) (L - 1) (s.length - 1)
          hL1 hlast1 hij
        rw [he1, he2] at hlt
        omega
      constructor
      · intro hcontra
        cases hcontra
      · intro hrhs
        rcases hrhs with hlt | hlast
        · rw [hlenL] at hlt
          omega
        · rw [hgetlast, hlast_msgs] at hlast
          exact absurd hlast hdiff
    · have hle : s.length ≤ L := Nat.not_lt.mp hmore
      rw [findByConversation_last s L hle]
      constructor
      · intro _
        rcases Nat.lt_or_ge s.length L with hlt | hge
        · exact Or.inl hlt
        · have hsL : s.length = L := by omega
          have hs_ne : s ≠ [] := by
            intro hnil
            rw [hnil] at hsL
            simp at hsL
            omega
          refine Or.inr ?_
          rw [hdecomp]
          exact (List.getLast?_append_of_ne_nil pre hs_ne).symm
      · intro _
        rfl

/-- Witness for C7 at a three-message conversation with page size 2. -/
theorem findByConversation_pagination_witness :
    paginateAll demoMsgsPage 2 (demoMsgsPage.length + 1) none = demoMsgsPage :=
  (findByConversation_pagination demoMsgsPage 2 (by omega) (by decide) (by decide)).1

/-- Helper: a call whose UPDATE has run is on the winning path. -/
theorem winner_of_written (pc : AcceptPC) (h : writtenPC pc = true) :
    winnerPC pc = true := by
  cases pc <;> first | rfl | exact absurd h (by decide)

/-- Helper: each atomic step of the accept race preserves the invariant. -/
theorem raceInv_step {n : Nat} (conv0 : Conversation) (agents : Fin n → String)
    (s : RaceState n) (i : Fin n) (inv : RaceInv conv0 agents s) :
    RaceInv conv0 agents (raceStep agents s i) := by
  cases hpc : s.pcs i with
  | start =>
      cases hlock : s.lock with
      | none =>
          simp only [raceStep, hpc, hlock]
          have hnocrit : ∀ j, inCritPC (s.pcs j) ≠ true := by
            intro j hj
            have := (inv.lockIff j).mpr hj
            rw [hlock] at this
            cases this
          refine ⟨?_, ?_, ?_, ?_, ?_, ?_, ?_, ?_⟩
          · intro j
            dsimp only
            rw [Function.update_apply]
            by_cases hji : j = i
            · rw [if_pos hji, hji]
              simp [inCritPC]
            · rw [if_neg hji]
              constructor
              · intro hj
                exact absurd (Option.some.inj hj).symm hji
              · intro hj
                exact absurd hj (hnocrit j)
          · intro j k hj hk
            dsimp only at hj hk
            rw [Function.update_apply] at hj hk
            by_cases hji : j = i <;> by_cases hki : k = i
            · rw [hji, hki]
            · rw [if_pos hji] at hj
              exact absurd hj (by decide)
            · rw [if_pos hki] at hk
              exact absurd hk (by decide)
            · rw [if_neg hji] at hj
              rw [if_neg hki] at hk
              exact inv.uniqueWinner j k hj hk
          · intro hp
            dsimp only at hp ⊢
            obtain ⟨hc, he, hw⟩ := inv.pendingClean hp
            refine ⟨hc, he, ?_⟩
            intro j
            rw [Function.update_apply]
            by_cases hji : j = i
            · rw [if_pos hji]
              rfl
            · rw [if_neg hji]
              exact hw j
          · intro j hj
            dsimp only at hj ⊢
            rw [Function.update_apply] at hj
            by_cases hji : j = i
            · rw [if_pos hji] at hj
              exact absurd hj (by decide)
            · rw [if_neg hji] at hj
              exact inv.writtenFacts j hj
          · exact inv.statusCases
          · intro ha
            dsimp only at ha ⊢
            obtain ⟨j, hj⟩ := inv.assignedHasWriter ha
            have hji : j ≠ i := by
              intro h
              rw [h, hpc] at hj
              exact absurd hj (by decide)
            refine ⟨j, ?_⟩
            rw [Function.update_apply, if_neg hji]
            exact hj
          · intro j hj
            dsimp only at hj ⊢
            rw [Function.update_apply] at hj
            by_cases hji : j = i
            · rw [if_pos hji] at hj
              rcases hj with h | h <;> exact absurd h (by decide)
            · rw [if_neg hji] at hj
              exact inv.conflictStateFacts j hj
          · intro _
            dsimp only
            exact Or.inr (by simp)
      | some k =>
          simp only [raceStep, hpc, hlock]
          have hki : k ≠ i := by
            intro h
            have := (inv.lockIff k).mp hlock
            rw [h, hpc] at this
            exact absurd this (by decide)
          refine ⟨?_, ?_, ?_, ?_, ?_, ?_, ?_, ?_⟩
          · intro j
            dsimp only
            rw [Function.update_apply]
            by_cases hji : j = i
            · rw [if_pos hji]
              constructor
              · intro hj
                exact absurd ((Option.some.inj hj).trans hji) hki
              · intro hj
                exact absurd hj (by decide)
            · rw [if_neg hji]
              rw [← hlock]
              exact inv.lockIff j
          · intro j k2 hj hk
            dsimp only at hj hk
            rw [Function.update_apply] at hj hk
            by_cases hji : j = i <;> by_cases hki2 : k2 = i
            · rw [hji, hki2]
            · rw [if_pos hji] at hj
              exact absurd hj (by decide)
            · rw [if_pos hki2] at hk
              exact absurd hk (by decide)
            · rw [if_neg hji] at hj
              rw [if_neg hki2] at hk
              exact inv.uniqueWinner j k2 hj hk
          · intro hp
            dsimp only at hp ⊢
            obtain ⟨hc, he, hw⟩ := inv.pendingClean hp
            refine ⟨hc, he, ?_⟩
            intro j
            rw [Function.update_apply]
            by_cases hji : j = i
            · rw [if_pos hji]
              rfl
            · rw [if_neg hji]
              exact hw j
          · intro j hj
            dsimp only at hj ⊢
            rw [Function.update_apply] at hj
            by_cases hji : j = i
            · rw [if_pos hji] at hj
              exact absurd hj (by decide)
            · rw [if_neg hji] at hj
              exact inv.writtenFacts j hj
          · exact inv.statusCases
          · intro ha
            dsimp only at ha ⊢
            obtain ⟨j, hj⟩ := inv.assignedHasWriter ha
            have hji : j ≠ i := by
              intro h
              rw [h, hpc] at hj
              exact absurd hj (by decide)
            refine ⟨j, ?_⟩
            rw [Function.update_apply, if_neg hji]
            exact hj
          · intro j hj
            dsimp only at hj ⊢
            rw [Function.update_apply] at hj
            by_cases hji : j = i
            · rw [if_pos hji] at hj
              rcases hj with h | h <;> exact absurd h (by decide)
            · rw [if_neg hji] at hj
              exact inv.conflictStateFacts j hj
          · intro _
            exact Or.inr (by simp)
  | locked =>
      have hlocki : s.lock = some i := (inv.lockIff i).mpr (by rw [hpc]; rfl)
      by_cases hst : s.conv.status = .PENDING
      · simp only [raceStep, hpc, if_pos hst]
        have hnowin : ∀ j, j ≠ i → winnerPC (s.pcs j) ≠ true := by
          intro j hji hj
          by_cases hjw : writtenPC (s.pcs j) = true
          · obtain ⟨hA, _, _⟩ := inv.writtenFacts j hjw
            rw [hst] at hA
            exact absurd hA (by decide)
          · have hcrit : inCritPC (s.pcs j) = true := by
              cases hw : s.pcs j <;> rw [hw] at hj hjw <;>
                first | rfl | exact absurd hj (by decide) | exact absurd rfl hjw
            have := (inv.lockIff j).mpr hcrit
            rw [hlocki] at this
            exact hji (Option.some.inj this).symm
        refine ⟨?_, ?_, ?_, ?_, ?_, ?_, ?_, ?_⟩
        · intro j
          dsimp only
          rw [Function.update_apply]
          by_cases hji : j = i
          · rw [if_pos hji, hji, hlocki]
            simp [inCritPC]
          · rw [if_neg hji]
            exact inv.lockIff j
        · intro j k hj hk
          dsimp only at hj hk
          rw [Function.update_apply] at hj hk
          by_cases hji : j = i <;> by_cases hki : k = i
          · rw [hji, hki]
          · rw [if_neg hki] at hk
            exact absurd hk (hnowin k hki)
          · rw [if_neg hji] at hj
            exact absurd hj (hnowin j hji)
          · rw [if_neg hji] at hj
            rw [if_neg hki] at hk
            exact inv.uniqueWinner j k hj hk
        · intro hp
          dsimp only at hp ⊢
          obtain ⟨hc, he, hw⟩ := inv.pendingClean hp
          refine ⟨hc, he, ?_⟩
          intro j
          rw [Function.update_apply]
          by_cases hji : j = i
          · rw [if_pos hji]
            rfl
          · rw [if_neg hji]
            exact hw j
        · intro j hj
          dsimp only at hj ⊢
          rw [Function.update_apply] at hj
          by_cases hji : j = i
          · rw [if_pos hji] at hj
            exact absurd hj (by decide)
          · rw [if_neg hji] at hj
            exact inv.writtenFacts j hj
        · exact inv.statusCases
        · intro ha
          dsimp only at ha
          rw [hst] at ha
          exact absurd ha (by decide)
        · intro j hj
          dsimp only at hj ⊢
          rw [Function.update_apply] at hj
          by_cases hji : j = i
          · rw [if_pos hji] at hj
            rcases hj with h | h <;> exact absurd h (by decide)
          · rw [if_neg hji] at hj
            have := inv.conflictStateFacts j hj
            rw [hst] at this
            exact absurd this (by decide)
        · intro _
          dsimp only
          rw [hlocki]
          exact Or.inr (by simp)
      · simp only [raceStep, hpc, if_neg hst]
        have hA : s.conv.status = .ASSIGNED := by
          rcases inv.statusCases with h | h
          · exact absurd h hst
          · exact h
        refine ⟨?_, ?_, ?_, ?_, ?_, ?_, ?_, ?_⟩
        · intro j
          dsimp only
          rw [Function.update_apply]
          by_cases hji : j = i
          · rw [if_pos hji, hji, hlocki]
            simp [inCritPC]
          · rw [if_neg hji]
            exact inv.lockIff j
        · intro j k hj hk
          dsimp only at hj hk
          rw [Function.update_apply] at hj hk
          by_cases hji : j = i <;> by_cases hki : k = i
          · rw [hji, hki]
          · rw [if_pos hji] at hj
            exact absurd hj (by decide)
          · rw [if_pos hki] at hk
            exact absurd hk (by decide)
          · rw [if_neg hji] at hj
            rw [if_neg hki] at hk
            exact inv.uniqueWinner j k hj hk
        · intro hp
          dsimp only at hp
          rw [hA] at hp
          exact absurd hp (by decide)
        · intro j hj
          dsimp only at hj ⊢
          rw [Function.update_apply] at hj
          by_cases hji : j = i
          · rw [if_pos hji] at hj
            exact absurd hj (by decide)
          · rw [if_neg hji] at hj
            exact inv.writtenFacts j hj
        · exact Or.inr hA
        · intro _
          dsimp only
          obtain ⟨j, hj⟩ := inv.assignedHasWriter hA
          have hji : j ≠ i := by
            intro h
            rw [h, hpc] at hj
            exact absurd hj (by decide)
          refine ⟨j, ?_⟩
          rw [Function.update_apply, if_neg hji]
          exact hj
        · intro j _
          exact hA
        · intro _
          exact Or.inl hA
  | writing =>
      simp only [raceStep, hpc]
      have hlocki : s.lock = some i := (inv.lockIff i).mpr (by rw [hpc]; rfl)
      have hst : s.conv.status = .PENDING := by
        rcases inv.statusCases with h | h
        · exact h
        · obtain ⟨j, hj⟩ := inv.assignedHasWriter h
          have hij := inv.uniqueWinner j i (winner_of_written _ hj) (by rw [hpc]; rfl)
          rw [hij, hpc] at hj
          exact absurd hj (by decide)
      obtain ⟨hconv0, hevents0, hnowrit⟩ := inv.pendingClean hst
      have hnowin : ∀ j, j ≠ i → winnerPC (s.pcs j) ≠ true := by
        intro j hji hj
        exact hji (inv.uniqueWinner j i hj (by rw [hpc]; rfl))
      refine ⟨?_, ?_, ?_, ?_, ?_, ?_, ?_, ?_⟩
      · intro j
        dsimp only
        rw [Function.update_apply]
        by_cases hji : j = i
        · rw [if_pos hji, hji, hlocki]
          simp [inCritPC]
        · rw [if_neg hji]
          exact inv.lockIff j
      · intro j k hj hk
        dsimp only at hj hk
        rw [Function.update_apply] at hj hk
        by_cases hji : j = i <;> by_cases hki : k = i
        · rw [hji, hki]
        · rw [if_neg hki] at hk
          exact absurd hk (hnowin k hki)
        · rw [if_neg hji] at hj
          exact absurd hj (hnowin j hji)
        · rw [if_neg hji] at hj
          rw [if_neg hki] at hk
          exact inv.uniqueWinner j k hj hk
      · intro hp
        simp at hp
      · intro j hj
        dsimp only at hj ⊢
        rw [Function.update_apply] at hj
        by_cases hji : j = i
        · subst hji
          refine ⟨rfl, rfl, ?_⟩
          rw [hevents0, hconv0]
          simp
        · rw [if_neg hji] at hj
          rw [hnowrit j] at hj
          cases hj
      · exact Or.inr rfl
      · intro _
        refine ⟨i, ?_⟩
        dsimp only
        rw [Function.update_apply, if_pos rfl]
        rfl
      · intro j _
        exact rfl
      · intro _
        exact Or.inl rfl
  | releasingSuccess =>
      simp only [raceStep, hpc]
      have hlocki : s.lock = some i := (inv.lockIff i).mpr (by rw [hpc]; rfl)
      obtain ⟨hA, hAg, hEv⟩ := inv.writtenFacts i (by rw [hpc]; rfl)
      refine ⟨?_, ?_, ?_, ?_, ?_, ?_, ?_, ?_⟩
      · intro j
        dsimp only
        constructor
        · intro hj
          cases hj
        · intro hj
          rw [Function.update_apply] at hj
          by_cases hji : j = i
          · rw [if_pos hji] at hj
            exact absurd hj (by decide)
          · rw [if_neg hji] at hj
            have := (inv.lockIff j).mpr hj
            rw [hlocki] at this
            exact absurd (Option.some.inj this).symm hji
      · intro j k hj hk
        dsimp only at hj hk
        rw [Function.update_apply] at hj hk
        by_cases hji : j = i <;> by_cases hki : k = i
        · rw [hji, hki]
        · rw [if_neg hki] at hk
          exact hji.trans (inv.uniqueWinner i k (by rw [hpc]; rfl) hk)
        · rw [if_neg hji] at hj
          exact (inv.uniqueWinner j i hj (by rw [hpc]; rfl)).trans hki.symm
        · rw [if_neg hji] at hj
          rw [if_neg hki] at hk
          exact inv.uniqueWinner j k hj hk
      · intro hp
        dsimp only at hp
        rw [hA] at hp
        exact absurd hp (by decide)
      · intro j hj
        dsimp only at hj ⊢
        rw [Function.update_apply] at hj
        by_cases hji : j = i
        · subst hji
          exact ⟨hA, hAg, hEv⟩
        · rw [if_neg hji] at hj
          exact inv.writtenFacts j hj
      · exact Or.inr hA
      · intro _
        refine ⟨i, ?_⟩
        dsimp only
        rw [Function.update_apply, if_pos rfl]
        rfl
      · intro j hj
        dsimp only at hj
        rw [Function.update_apply] at hj
        by_cases hji : j = i
        · rw [if_pos hji] at hj
          rcases hj with h | h <;> exact absurd h (by decide)
        · rw [if_neg hji] at hj
          exact inv.conflictStateFacts j hj
      · intro _
        exact Or.inl hA
  | releasingConflict =>
      simp only [raceStep, hpc]
      have hlocki : s.lock = some i := (inv.lockIff i).mpr (by rw [hpc]; rfl)
      have hA : s.conv.status = .ASSIGNED := inv.conflictStateFacts i (Or.inl hpc)
      refine ⟨?_, ?_, ?_, ?_, ?_, ?_, ?_, ?_⟩
      · intro j
        dsimp only
        constructor
        · intro hj
          cases hj
        · intro hj
          rw [Function.update_apply] at hj
          by_cases hji : j = i
          · rw [if_pos hji] at hj
            exact absurd hj (by decide)
          · rw [if_neg hji] at hj
            have := (inv.lockIff j).mpr hj
            rw [hlocki] at this
            exact absurd (Option.some.inj this).symm hji
      · intro j k hj hk
        dsimp only at hj hk
        rw [Function.update_apply] at hj hk
        by_cases hji : j = i <;> by_cases hki : k = i
        · rw [hji, hki]
        · rw [if_pos hji] at hj
          exact absurd hj (by decide)
        · rw [if_pos hki] at hk
          exact absurd hk (by decide)
        · rw [if_neg hji] at hj
          rw [if_neg hki] at hk
          exact inv.uniqueWinner j k hj hk
      · intro hp
        dsimp only at hp
        rw [hA] at hp
        exact absurd hp (by decide)
      · intro j hj
        dsimp only at hj ⊢
        rw [Function.update_apply] at hj
        by_cases hji : j = i
        · rw [if_pos hji] at hj
          exact absurd hj (by decide)
        · rw [if_neg hji] at hj
          exact inv.writtenFacts j hj
      · exact Or.inr hA
      · intro _
        dsimp only
        obtain ⟨j, hj⟩ := inv.assignedHasWriter hA
        have hji : j ≠ i := by
          intro h
          rw [h, hpc] at hj
          exact absurd hj (by decide)
        refine ⟨j, ?_⟩
        rw [Function.update_apply, if_neg hji]
        exact hj
      · intro j _
        exact hA
      · intro _
        exact Or.inl hA
  | doneSuccess =>
      simpa only [raceStep, hpc] using inv
  | doneConflictLock =>
      simpa only [raceStep, hpc] using inv
  | doneConflictState =>
      simpa only [raceStep, hpc] using inv

/-- Helper: the race invariant holds in the initial state. -/
theorem raceInv_init {n : Nat} (conv0 : Conversation) (agents : Fin n → String)
    (h0 : conv0.status = .PENDING) :
    RaceInv conv0 agents (initRace (n := n) conv0) := by
  unfold initRace
  refine ⟨?_, ?_, ?_, ?_, ?_, ?_, ?_, ?_⟩
  · intro j
    dsimp only
    constructor
    · intro hj
      cases hj
    · intro hj
      exact absurd hj (by decide)
  · intro j k hj hk
    dsimp only at hj
    exact absurd hj (by decide)
  · intro _
    exact ⟨rfl, rfl, fun j => rfl⟩
  · intro j hj
    dsimp only at hj
    exact absurd hj (by decide)
  · exact Or.inl h0
  · intro ha
    dsimp only at ha
    rw [h0] at ha
    exact absurd ha (by decide)
  · intro j hj
    dsimp only at hj
    rcases hj with h | h <;> exact absurd h (by decide)
  · intro hj
    obtain ⟨j, h⟩ := hj
    dsimp only at h
    exact absurd h (by decide)

/-- Helper: the race invariant holds after any schedule. -/
theorem raceInv_run {n : Nat} (conv0 : Conversation) (agents : Fin n → String)
    (h0 : conv0.status = .PENDING) (sched : List (Fin n)) :
    RaceInv conv0 agents (runRace agents conv0 sched) := by
  unfold runRace
  have hfold : ∀ (l : List (Fin n)) (s : RaceState n), RaceInv conv0 agents s →
      RaceInv conv0 agents (l.foldl (raceStep agents) s) := by
    intro l
    induction l with
    | nil => intro s hs; exact hs
    | cons a l ih =>
        intro s hs
        exact ih _ (raceInv_step conv0 agents s a hs)
  exact hfold sched _ (raceInv_init conv0 agents h0)

/-- C1: for every schedule that interleaves N concurrent `accept` calls
on a PENDING conversation to completion, exactly one call ends in
success, every other call ends in one of the two Conflict outcomes, the
final row is ASSIGNED to the winner's agent, and exactly the winner's
ACCEPTED event was appended. (The 5-second lock TTL is a wall-clock
mechanism and is not modelled: no lock expires mid-critical-section.) -/
theorem accept_race_exclusive {n : Nat} (agents : Fin n → String)
    (conv0 : Conversation) (h0 : conv0.status = .PENDING) (hn : 0 < n)
    (sched : List (Fin n))
    (hdone : ∀ i, isDonePC ((runRace agents conv0 sched).pcs i) = true) :
    ∃ w : Fin n,
      (runRace agents conv0 sched).pcs w = .doneSuccess ∧
      (∀ j, (runRace agents conv0 sched).pcs j = .doneSuccess → j = w) ∧
      (runRace agents conv0 sched).conv.status = .ASSIGNED ∧
      (runRace agents conv0 sched).conv.assignedAgentId = some (agents w) ∧
      (runRace agents conv0 sched).events =
        [⟨conv0.id, .ACCEPTED, some (agents w), none⟩] ∧
      ∀ j, j ≠ w → (runRace agents conv0 sched).pcs j = .doneConflictLock ∨
        (runRace agents conv0 sched).pcs j = .doneConflictState := by
  have inv := raceInv_run conv0 agents h0 sched
  set s := runRace agents conv0 sched with hs
  have hstatusA : s.conv.status = .ASSIGNED → ∃ w, s.pcs w = .doneSuccess := by
    intro hA
    obtain ⟨j, hj⟩ := inv.assignedHasWriter hA
    cases hw : s.pcs j with
    | doneSuccess => exact ⟨j, hw⟩
    | releasingSuccess =>
        have hd := hdone j
        rw [hw] at hd
        exact absurd hd (by decide)
    | start => rw [hw] at hj; exact absurd hj (by decide)
    | locked => rw [hw] at hj; exact absurd hj (by decide)
    | writing => rw [hw] at hj; exact absurd hj (by decide)
    | releasingConflict => rw [hw] at hj; exact absurd hj (by decide)
    | doneConflictLock => rw [hw] at hj; exact absurd hj (by decide)
    | doneConflictState => rw [hw] at hj; exact absurd hj (by decide)
  have hwin : ∃ w, s.pcs w = .doneSuccess := by
    have hd0 := hdone ⟨0, hn⟩
    cases hp0 : s.pcs ⟨0, hn⟩ with
    | doneSuccess => exact ⟨⟨0, hn⟩, hp0⟩
    | doneConflictState =>
        exact hstatusA (inv.conflictStateFacts ⟨0, hn⟩ (Or.inr hp0))
    | doneConflictLock =>
        rcases inv.conflictLockFacts ⟨⟨0, hn⟩, hp0⟩ with hA | hlockne
        · exact hstatusA hA
        · cases hl : s.lock with
          | none => exact absurd hl hlockne
          | some j =>
              have hcrit := (inv.lockIff j).mp hl
              have hdj := hdone j
              cases hw : s.pcs j <;> rw [hw] at hcrit hdj <;>
                first
                | exact absurd hcrit (by decide)
                | exact absurd hdj (by decide)
    | start => rw [hp0] at hd0; exact absurd hd0 (by decide)
    | locked => rw [hp0] at hd0; exact absurd hd0 (by decide)
    | writing => rw [hp0] at hd0; exact absurd hd0 (by decide)
    | releasingSuccess => rw [hp0] at hd0; exact absurd hd0 (by decide)
    | releasingConflict => rw [hp0] at hd0; exact absurd hd0 (by decide)
  obtain ⟨w, hw⟩ := hwin
  obtain ⟨hA, hAg, hEv⟩ := inv.writtenFacts w (by rw [hw]; rfl)
  refine ⟨w, hw, ?_, hA, hAg, hEv, ?_⟩
  · intro j hj
    exact inv.uniqueWinner j w (by rw [hj]; rfl) (by rw [hw]; rfl)
  · intro j hjw
    have hdj := hdone j
    cases hjpc : s.pcs j with
    | doneSuccess =>
        exact absurd (inv.uniqueWinner j w (by rw [hjpc]; rfl) (by rw [hw]; rfl)) hjw
    | doneConflictLock => exact Or.inl rfl
    | doneConflictState => exact Or.inr rfl
    | start => rw [hjpc] at hdj; exact absurd hdj (by decide)
    | locked => rw [hjpc] at hdj; exact absurd hdj (by decide)
    | writing => rw [hjpc] at hdj; exact absurd hdj (by decide)
    | releasingSuccess => rw [hjpc] at hdj; exact absurd hdj (by decide)
    | releasingConflict => rw [hjpc] at hdj; exact absurd hdj (by decide)

/-- Witness for C1: the two-agent race under the schedule where agent 1
acquires the lock, agent 2's acquisition fails, and agent 1 re-reads,
writes and releases. -/
theorem accept_race_exclusive_witness :
    ∃ w : Fin 2,
      (runRace demoAgents demoConvPending demoSched).pcs w = .doneSuccess ∧
      (∀ j, (runRace demoAgents demoConvPending demoSched).pcs j = .doneSuccess →
        j = w) ∧
      (runRace demoAgents demoConvPending demoSched).conv.status = .ASSIGNED ∧
      (runRace demoAgents demoConvPending demoSched).conv.assignedAgentId =
        some (demoAgents w) ∧
      (runRace demoAgents demoConvPending demoSched).events =
        [⟨demoConvPending.id, .ACCEPTED, some (demoAgents w), none⟩] ∧
      ∀ j, j ≠ w →
        (runRace demoAgents demoConvPending demoSched).pcs j = .doneConflictLock ∨
        (runRace demoAgents demoConvPending demoSched).pcs j = .doneConflictState :=
  accept_race_exclusive demoAgents demoConvPending rfl (by decide) demoSched
    (by decide)

end ChatOpsHub
